import Mathlib

/-!
Verification of the gioui.org/cpu offline compiler (cmd/compile/main.go)
against its natural-language specification.

The Go source is shallowly embedded: every definition below is a direct
translation of the corresponding Go function.  Strings are modelled as
`List Char` (one entry per rune) wherever character-level scanning matters.
`fmt.Sscanf` is modelled only for the format strings actually used by the
program (`"%d:[%d]%s"`, `"%d:%s"`, `"LocalSize %d %d %d"`), following the
documented semantics of Go's `fmt` scanning for `Sscanf` (newlines in the
input must match newlines in the format; every verb except `%c` first skips
leading spaces; `%d` scans an optionally signed base-10 integer that must
fit in 64 bits; `%s` scans a maximal nonempty run of non-space characters).
-/

deriving instance DecidableEq for Except

namespace GioCpu

/-- Go `descriptorType`: `descriptorTypeBuffer` / `descriptorTypeImage`. -/
inductive descriptorType where
  | buffer
  | image
deriving DecidableEq, Repr

/-- Go `descriptor` struct: `\x7bbinding int; _type descriptorType; count int\x7d`
(the Go field `_type` is called `dtype` here). -/
structure descriptor where
  binding : Int
  dtype : descriptorType
  count : Int
deriving DecidableEq, Repr

/-- Go `program` struct. -/
structure program where
  hasControlBarriers : Bool
  workgroupSize : Int × Int × Int
  memorySize : Int
deriving DecidableEq, Repr

/-! ## Model of Go `fmt` scanning (the `ss` scanner with `nlIsSpace = false`,
as used by `fmt.Sscanf`). -/

/-- The space-character table of Go's `fmt` package (`fmt/scan.go`, `var space`). -/
def isSpaceGo (c : Char) : Bool :=
  let n := c.toNat
  decide ((0x09 ≤ n ∧ n ≤ 0x0d) ∨ n = 0x20 ∨ n = 0x85 ∨ n = 0xa0 ∨ n = 0x1680 ∨
    (0x2000 ≤ n ∧ n ≤ 0x200a) ∨ n = 0x2028 ∨ n = 0x2029 ∨ n = 0x202f ∨ n = 0x205f ∨
    n = 0x3000)

/-- Whether a character list starts with a newline (used for Go's `\r\n` pairing). -/
def headIsNewline (l : List Char) : Bool :=
  match l with
  | '\n' :: _ => true
  | _ => false

/-- Go `ss.SkipSpace` with `nlIsSpace = false`: skips spaces, but an input
newline (or `\r\n`) where the format has none is a scan error (`none`). -/
def skipSpace : List Char → Option (List Char)
  | [] => some []
  | c :: rest =>
    if c = '\n' then none
    else if c = '\r' && headIsNewline rest then none
    else if isSpaceGo c then skipSpace rest
    else some (c :: rest)

/-- Go `ss.accept(sign)` in `scanInt`: at most one leading `+`/`-`. -/
def readSign : List Char → Int × List Char
  | [] => (1, [])
  | c :: t => if c = '+' then (1, t) else if c = '-' then (-1, t) else (1, c :: t)

/-- A decimal digit (`'0' ≤ c && c ≤ '9'`, stated on code points). -/
def isDigitGo (c : Char) : Bool :=
  decide (48 ≤ c.toNat ∧ c.toNat ≤ 57)

/-- Decimal value of a digit run (the `strconv.ParseInt` digits loop). -/
def digitsToNat (l : List Char) : Nat :=
  l.foldl (fun a c => 10 * a + (c.toNat - 48)) 0

/-- Go `ss.scanInt` for verb `%d` into a 64-bit `int`: skip spaces, optional
sign, a nonempty run of decimal digits, value must fit in `int64`
(`strconv.ParseInt(tok, 10, 64)` errors on overflow). -/
def scanInt (s : List Char) : Option (Int × List Char) := do
  let r1 ← skipSpace s
  match r1 with
  | [] => none
  | _ =>
    let (sgn, r2) := readSign r1
    let digs := r2.takeWhile isDigitGo
    let r3 := r2.dropWhile isDigitGo
    if digs.isEmpty then none
    else
      let v : Int := sgn * Int.ofNat (digitsToNat digs)
      if v < -(2 ^ 63) ∨ 2 ^ 63 - 1 < v then none
      else some (v, r3)

/-- Go `ss.convertString` for verb `%s`: skip spaces, require non-EOF, then
take the maximal run of non-space characters. -/
def scanString (s : List Char) : Option (List Char × List Char) := do
  let r1 ← skipSpace s
  match r1 with
  | [] => none
  | _ => some (r1.takeWhile (fun c => !isSpaceGo c), r1.dropWhile (fun c => !isSpaceGo c))

/-- A non-space literal character in a `Sscanf` format string must match the
next input character exactly. -/
def litChar (ch : Char) : List Char → Option (List Char)
  | [] => none
  | c :: rest => if c = ch then some rest else none

/-- Literal run of characters in a format string, matched exactly. -/
def litStr : List Char → List Char → Option (List Char)
  | [], input => some input
  | p :: ps, input => do litStr ps (← litChar p input)

/-- `fmt.Sscanf(def, "%d:[%d]%s", &binding, &count, &typeName)`. -/
def scanBindingCountType (s : List Char) : Option (Int × Int × List Char) := do
  let (b, r1) ← scanInt s
  let r2 ← litChar ':' r1
  let r3 ← litChar '[' r2
  let (c, r4) ← scanInt r3
  let r5 ← litChar ']' r4
  let (ty, _) ← scanString r5
  pure (b, c, ty)

/-- `fmt.Sscanf(def, "%d:%s", &binding, &typeName)`. -/
def scanBindingType (s : List Char) : Option (Int × List Char) := do
  let (b, r1) ← scanInt s
  let r2 ← litChar ':' r1
  let (ty, _) ← scanString r2
  pure (b, ty)

/-! ## `parseDescriptorSetLayout` -/

/-- Go `strings.Split(layoutDef, ",")`: on the empty string this yields one
empty token, never an empty list. -/
def splitComma : List Char → List (List Char)
  | [] => [[]]
  | c :: rest =>
    if c = ',' then [] :: splitComma rest
    else
      match splitComma rest with
      | t :: ts => (c :: t) :: ts
      | [] => [[c]]

/-- The `switch typeName` at the end of the parse loop. -/
def checkTypeName (b cnt : Int) (ty : List Char) : Except String descriptor :=
  if ty = "buffer".data then .ok ⟨b, .buffer, cnt⟩
  else if ty = "image".data then .ok ⟨b, .image, cnt⟩
  else .error "unknown descriptor type"

/-- One iteration of the parse loop: try `"%d:[%d]%s"`, on failure reset
`count` to 1 and try `"%d:%s"`, then check the type name. -/
def parseToken (tok : List Char) : Except String descriptor :=
  match scanBindingCountType tok with
  | some (b, c, ty) => checkTypeName b c ty
  | none =>
    match scanBindingType tok with
    | some (b, ty) => checkTypeName b 1 ty
    | none => .error "scan error"

/-- The parse loop over all comma-separated tokens (first error wins). -/
def parseTokens : List (List Char) → Except String (List descriptor)
  | [] => .ok []
  | tok :: rest =>
    match parseToken tok with
    | .error e => .error e
    | .ok d =>
      match parseTokens rest with
      | .error e => .error e
      | .ok ds => .ok (d :: ds)

/-- Go `parseDescriptorSetLayout` (character-list core). -/
def parseLayoutChars (layoutDef : List Char) : Except String (List descriptor) :=
  parseTokens (splitComma layoutDef)

/-- Go `func parseDescriptorSetLayout(layoutDef string) ([]descriptor, error)`. -/
def parseDescriptorSetLayout (layoutDef : String) : Except String (List descriptor) :=
  parseLayoutChars layoutDef.data

/-! ## Reference grammar of the spec (§4.1 / §6)

The following definitions follow the specification's words, for comparison
with `parseDescriptorSetLayout`: a token is exactly `binding:kind` or
`binding:[count]kind`, where `binding` is a run of decimal digits (a
nonnegative integer), `count` is a run of decimal digits with positive value
(the data model requires `count ≥ 1`), `kind` is exactly `buffer` or
`image`, and — so that a successful machine scan is possible at all — the
numbers fit in a 64-bit `int`. -/

/-- `kind ∈ \x7bbuffer, image\x7d`, per the spec grammar. -/
def specKind (k : List Char) : Option descriptorType :=
  if k = "buffer".data then some descriptorType.buffer
  else if k = "image".data then some descriptorType.image
  else none

/-- Spec-grammar recognizer for one token; `some d` when the token is exactly
of one of the two documented forms, with the descriptor it denotes. -/
def specToken (tok : List Char) : Option descriptor :=
  let bd := tok.takeWhile isDigitGo
  let rest := tok.dropWhile isDigitGo
  if bd.isEmpty then none
  else if 2 ^ 63 - 1 < digitsToNat bd then none
  else
    match rest with
    | ':' :: '[' :: r3 =>
      let cd := r3.takeWhile isDigitGo
      let r4 := r3.dropWhile isDigitGo
      if cd.isEmpty then none
      else if digitsToNat cd = 0 then none
      else if 2 ^ 63 - 1 < digitsToNat cd then none
      else
        match r4 with
        | ']' :: kind =>
          (specKind kind).map fun ty =>
            ⟨Int.ofNat (digitsToNat bd), ty, Int.ofNat (digitsToNat cd)⟩
        | _ => none
    | ':' :: r2 =>
      (specKind r2).map fun ty => ⟨Int.ofNat (digitsToNat bd), ty, 1⟩
    | _ => none

/-- Spec-grammar recognizer for a full comma-separated layout string. -/
def specTokens : List (List Char) → Option (List descriptor)
  | [] => some []
  | t :: ts =>
    match specToken t, specTokens ts with
    | some d, some ds => some (d :: ds)
    | _, _ => none

/-! ## `parseProgramParams`

The function pipes the SPIR-V binary through the external `spirv-dis` tool
and then scans the resulting disassembly text line by line.  The subprocess
is outside the program; the pure scanning loop is embedded here as a
function of the disassembly text. -/

/-- Go `p.HasPrefix`-style exact prefix test on character lists. -/
def hasPfx : List Char → List Char → Bool
  | [], _ => true
  | _ :: _, [] => false
  | p :: ps, c :: cs => p = c && hasPfx ps cs

/-- `strings.Index(line, pat)`, returning the suffix of `line` starting at the
first occurrence of `pat` (`none` when `Index` would return `-1`). -/
def findSuffixFrom (pat : List Char) : List Char → Option (List Char)
  | [] => if hasPfx pat [] then some [] else none
  | c :: rest =>
    if hasPfx pat (c :: rest) then some (c :: rest)
    else findSuffixFrom pat rest

/-- `strings.Index(line, pat) != -1`. -/
def containsSub (pat s : List Char) : Bool :=
  (findSuffixFrom pat s).isSome

/-- `bytes.Buffer.ReadString('\n')` loop structure: the newline-terminated
lines of the text, each including its trailing `'\n'`.  The final line is
returned together with `io.EOF` when it is not newline-terminated, and the
loop `break`s without processing it, so it is dropped here. -/
def splitLinesAux : List Char → List Char → List (List Char)
  | [], _ => []
  | c :: rest, acc =>
    if c = '\n' then (acc ++ ['\n']) :: splitLinesAux rest []
    else splitLinesAux rest (acc ++ [c])

/-- The newline-terminated lines of a disassembly text. -/
def splitLines (s : List Char) : List (List Char) :=
  splitLinesAux s []

/-- `fmt.Sscanf(sub, "LocalSize %d %d %d", &s[0], &s[1], &s[2])`.  The format
spaces before each `%d` are subsumed by `scanInt`'s own space skipping. -/
def scanLocalSize (sub : List Char) : Option (Int × Int × Int) := do
  let r0 ← litStr "LocalSize".data sub
  let (x, r1) ← scanInt r0
  let (y, r2) ← scanInt r1
  let (z, _) ← scanInt r2
  pure (x, y, z)

/-- The initial `program` value: `p.memorySize = 1e5` is set before the scan
loop; the other fields start at their Go zero values. -/
def initProgram : program :=
  { hasControlBarriers := false, workgroupSize := (0, 0, 0), memorySize := 100000 }

/-- The `switch` body of the scan loop for one line. -/
def processLine (p : program) (line : List Char) : Except String program :=
  if hasPfx "OpExecutionMode".data line then
    match findSuffixFrom "LocalSize ".data line with
    | none => .error "unknown execution mode"
    | some sub =>
      match scanLocalSize sub with
      | none => .error "scan error"
      | some xyz => .ok { p with workgroupSize := xyz }
  else if containsSub "OpControlBarrier".data line then
    .ok { p with hasControlBarriers := true }
  else .ok p

/-- The scan loop over all newline-terminated lines (first error wins). -/
def processLines (p : program) : List (List Char) → Except String program
  | [] => .ok p
  | l :: ls =>
    match processLine p l with
    | .error e => .error e
    | .ok p2 => processLines p2 ls

/-- Go `parseProgramParams`, as a function of the `spirv-dis` disassembly
text of its SPIR-V argument. -/
def parseProgramParamsDis (dis : String) : Except String program :=
  processLines initProgram (splitLines dis.data)

/-- A line on which the scan loop errors: it begins with `OpExecutionMode`
but lacks `LocalSize ` or its three integers cannot be scanned. -/
def malformedExecLine (line : List Char) : Bool :=
  hasPfx "OpExecutionMode".data line &&
    match findSuffixFrom "LocalSize ".data line with
    | none => true
    | some sub => (scanLocalSize sub).isNone

/-- A line that sets `hasControlBarriers`: it contains `OpControlBarrier`
and does not begin with `OpExecutionMode` (the `switch` prefers the
execution-mode case). -/
def barrierLine (l : List Char) : Bool :=
  !hasPfx "OpExecutionMode".data l && containsSub "OpControlBarrier".data l

/-- Reference fold for the workgroup size on success: the scanned value of
the last `OpExecutionMode` line, starting from the Go zero value. -/
def wgFold : Int × Int × Int → List (List Char) → Int × Int × Int
  | w, [] => w
  | w, l :: ls =>
    if hasPfx "OpExecutionMode".data l then
      match findSuffixFrom "LocalSize ".data l with
      | some sub =>
        match scanLocalSize sub with
        | some xyz => wgFold xyz ls
        | none => wgFold w ls
      | none => wgFold w ls
    else wgFold w ls

/-- `strings.Index(p, s) != -1` at the `String` level. -/
def containsStr (p s : String) : Bool :=
  containsSub p.data s.data

/-! ## Symbol renaming (`main`, lines 195–215) -/

/-- The six coroutine-ABI symbols listed in `main`. -/
def renameSymbolList : List String :=
  ["coroutine_begin", "coroutine_await", "coroutine_destroy",
   "coroutine_begin.resume", "coroutine_begin.destroy", "coroutine_begin.cleanup"]

/-- The `--redefine-sym` argument pairs built by the loop in `main`:
`fmt.Sprintf("%s=%s_%s", sym, name, sym)` for each symbol. -/
def renameArgs (name : String) : List String :=
  renameSymbolList.foldl
    (fun acc sym => acc ++ ["--redefine-sym", sym ++ "=" ++ name ++ "_" ++ sym]) []

/-- The full `objcopy` argument list: the rename pairs followed by the object
file name. -/
def objcopyArgs (name syso : String) : List String :=
  renameArgs name ++ [syso]

/-- `fmt.Sprintf("%s_linux_%s.syso", name, *arch)` (`main`, line 190). -/
def sysoFileName (name arch : String) : String :=
  name ++ "_linux_" ++ arch ++ ".syso"

/-! ## `strings.Title` (ASCII model)

Go's `strings.Title` title-cases every rune that follows a separator, with
the separator state seeded by `' '`.  For ASCII runes a separator is anything
that is not a letter, digit or `'_'`; for non-ASCII runes the model
approximates `unicode.IsSpace` by the `fmt` space table (the program only
ever passes ASCII file base names). -/

/-- Go `strings.isSeparator`, ASCII-exact. -/
def isSepGo (c : Char) : Bool :=
  if c.toNat ≤ 0x7f then
    !(('0' ≤ c && c ≤ '9') || ('a' ≤ c && c ≤ 'z') || ('A' ≤ c && c ≤ 'Z') || c = '_')
  else isSpaceGo c

/-- `unicode.ToTitle` restricted to ASCII. -/
def goTitleAux : Char → List Char → List Char
  | _, [] => []
  | prev, c :: rest => (if isSepGo prev then c.toUpper else c) :: goTitleAux c rest

/-- Go `strings.Title`. -/
def goTitle (s : String) : String :=
  ⟨goTitleAux ' ' s.data⟩

/-! ## Generated artifact text (`generateGoFallback`, `generateGo`,
`generateHeader`)

Each generator is translated printf-by-printf; `%s`/`%d` interpolations
become string appends.  Braces in the generated text are written with
their `\x7b`/`\x7d` escapes.  `generateGo`'s `%q` is modelled as plain
double-quoting, exact for the escape-free hex digest the program passes.
The final `format.Source` (gofmt) pass of the Go code — the identity on
the already well-formed text generated for identifier-shaped names — is
not modelled; the theorems speak about the text handed to it. -/

def supportConstraints : String := "linux && (arm64 || arm || amd64)"

def supportConstraints116 : String := "// +build linux\n// +build arm64 arm amd64"

def nosupportConstraints116 : String := "// +build !linux !arm64,!arm,!amd64"

/-- The Go-side type name of a descriptor (`"Buffer"` / `"Image"`). -/
def descTypeGoName : descriptorType → String
  | .buffer => "Buffer"
  | .image => "Image"

/-- The C-side type name of a descriptor (`"buffer"` / `"image"`). -/
def descTypeCName : descriptorType → String
  | .buffer => "buffer"
  | .image => "image"

/-- The per-descriptor emission loops of the generators, in layout order. -/
def concatMapStr (f : descriptor → String) : List descriptor → String
  | [] => ""
  | d :: ds => f d ++ concatMapStr f ds

/-- One loop iteration of `generateGoFallback`: the three printfs emitting a
`BindingN` accessor whose whole body is `panic("unsupported")`. -/
def fallbackAccessor (name : String) (d : descriptor) : String :=
  "func (l *" ++ goTitle name ++ "DescriptorSetLayout) Binding" ++ toString d.binding
    ++ "(" ++ (if 1 < d.count then "index int" else "") ++ ") *cpu."
    ++ descTypeGoName d.dtype ++ "Descriptor \x7b\n"
    ++ "\tpanic(\"unsupported\")\n"
    ++ "\x7d\n\n"

/-- Go `generateGoFallback` (text before the `format.Source` pass). -/
def generateGoFallback (pkg name : String) (layout : List descriptor) : String :=
  "// Code generated by gioui.org/cpu/cmd/compile DO NOT EDIT.\n\n"
    ++ "//go:build !(" ++ supportConstraints ++ ")\n"
    ++ nosupportConstraints116 ++ "\n\n"
    ++ "package " ++ pkg ++ "\n\n"
    ++ "import \"gioui.org/cpu\"\n"
    ++ "var " ++ goTitle name ++ "ProgramInfo *cpu.ProgramInfo\n\n"
    ++ "type " ++ goTitle name ++ "DescriptorSetLayout struct\x7b\x7d\n\n"
    ++ "const " ++ goTitle name ++ "Hash = \"\"\n\n"
    ++ concatMapStr (fallbackAccessor name) layout

/-- One loop iteration of `generateGo`: the `BindingN` accessor returning a
typed pointer, indexed when `count > 1`. -/
def goAccessor (name : String) (d : descriptor) : String :=
  "func (l *" ++ goTitle name ++ "DescriptorSetLayout) Binding" ++ toString d.binding
    ++ "(" ++ (if 1 < d.count then "index int" else "") ++ ") *cpu."
    ++ descTypeGoName d.dtype ++ "Descriptor \x7b\n"
    ++ "\treturn (*cpu." ++ descTypeGoName d.dtype ++ "Descriptor)(unsafe.Pointer(&l.binding"
    ++ toString d.binding ++ (if 1 < d.count then "[index]" else "") ++ "))\n"
    ++ "\x7d\n\n"

/-- Model of `%q` for the escape-free strings the program passes. -/
def goQuote (s : String) : String :=
  "\"" ++ s ++ "\""

/-- Go `generateGo` (text before the `format.Source` pass). -/
def generateGo (pkg name hexSum : String) (layout : List descriptor) : String :=
  "// Code generated by gioui.org/cpu/cmd/compile DO NOT EDIT.\n\n"
    ++ "//go:build " ++ supportConstraints ++ "\n"
    ++ supportConstraints116 ++ "\n\n"
    ++ "package " ++ pkg ++ "\n\n"
    ++ "import \"gioui.org/cpu\"\n"
    ++ "import \"unsafe\"\n\n"
    ++ "/*\n"
    ++ "#cgo LDFLAGS: -lm\n\n"
    ++ "#include <stdint.h>\n"
    ++ "#include <stdlib.h>\n"
    ++ "#include \"abi.h\"\n"
    ++ "#include \"runtime.h\"\n"
    ++ "#include \"" ++ name ++ "_abi.h\"\n"
    ++ "*/\n"
    ++ "import \"C\"\n\n"
    ++ "var " ++ goTitle name ++ "ProgramInfo = (*cpu.ProgramInfo)(unsafe.Pointer(&C."
    ++ name ++ "_program_info))\n\n"
    ++ "type " ++ goTitle name ++ "DescriptorSetLayout = C.struct_" ++ name
    ++ "_descriptor_set_layout\n\n"
    ++ "const " ++ goTitle name ++ "Hash = " ++ goQuote hexSum ++ "\n\n"
    ++ concatMapStr (goAccessor name) layout

/-- One loop iteration of `generateHeader`: the descriptor-set struct field,
arrayed when `count > 1`. -/
def headerField (d : descriptor) : String :=
  "\tstruct " ++ descTypeCName d.dtype ++ "_descriptor binding" ++ toString d.binding
    ++ (if 1 < d.count then "[" ++ toString d.count ++ "]" else "") ++ ";\n"

/-- Go `generateHeader` (the printf texts around the field loop are grouped
so that the loop output is one operand of the concatenation). -/
def generateHeader (name : String) (layout : List descriptor) : String :=
  ("// Code generated by gioui.org/cpu/cmd/compile DO NOT EDIT.\n\n"
      ++ "struct " ++ name ++ "_descriptor_set_layout \x7b\n")
    ++ concatMapStr headerField layout
    ++ ("\x7d;\n\n"
      ++ "extern coroutine " ++ name ++ "_coroutine_begin(struct program_data *data,\n"
      ++ "\tint32_t workgroupX, int32_t workgroupY, int32_t workgroupZ,\n"
      ++ "\tvoid *workgroupMemory,\n"
      ++ "\tint32_t firstSubgroup,\n"
      ++ "\tint32_t subgroupCount) ATTR_HIDDEN;\n\n"
      ++ "extern bool " ++ name ++ "_coroutine_await(coroutine r, yield_result *res) ATTR_HIDDEN;\n"
      ++ "extern void " ++ name ++ "_coroutine_destroy(coroutine r) ATTR_HIDDEN;\n\n"
      ++ "extern const struct program_info " ++ name ++ "_program_info ATTR_HIDDEN;\n")

/-! ## Dispatch partitioning (spec-modelled)

The `gioui.org/cpu` runtime package that implements `DispatchContext.Prepare`
and `Dispatch` is not part of the sources under verification; only its
caller (`cmd/example/main.go`) is.  The partitioning below is therefore
modelled from the specification. -/

/-- Ceiling division used to cover one grid axis with workgroups. -/
def ceilDiv (a b : Nat) : Nat :=
  (a + b - 1) / b

/-- Modelled from the spec: `Prepare` "partitions the grid into workgroups
per `program.workgroupSize`" — the number of workgroups covering the grid. -/
def numWorkgroups (grid wg : Nat × Nat × Nat) : Nat :=
  ceilDiv grid.1 wg.1 * ceilDiv grid.2.1 wg.2.1 * ceilDiv grid.2.2 wg.2.2

/-- Modelled from the spec: the total invocation count of a dispatch — one
invocation per grid point covered, i.e. workgroups times workgroup volume. -/
def totalInvocations (grid wg : Nat × Nat × Nat) : Nat :=
  numWorkgroups grid wg * (wg.1 * wg.2.1 * wg.2.2)

/-- Modelled from the spec: `Prepare` "divides the workgroup set into
`threadCount` contiguous subgroups (tie-break: earlier subgroups receive the
remainder when the workgroup count does not divide evenly)" — the workgroup
count of subgroup `i` out of `t` for `n` workgroups. -/
def subgroupSize (n t i : Nat) : Nat :=
  n / t + if i < n % t then 1 else 0

/-- The workgroup counts of all `t` subgroups, in subgroup order. -/
def subgroupSizes (n t : Nat) : List Nat :=
  (List.range t).map (subgroupSize n t)

/-! ## Evaluation checks of the embedding on concrete inputs -/

example : parseDescriptorSetLayout "0:buffer,1:[10]image" =
    .ok [⟨0, .buffer, 1⟩, ⟨1, .image, 10⟩] := by decide
example : parseDescriptorSetLayout "" = .error "scan error" := by decide
example : parseDescriptorSetLayout "0:buffer junk" = .ok [⟨0, .buffer, 1⟩] := by decide
example : parseDescriptorSetLayout "-1:buffer" = .ok [⟨-1, .buffer, 1⟩] := by decide
example : parseDescriptorSetLayout "0:[0]buffer" = .ok [⟨0, .buffer, 0⟩] := by decide
example : parseDescriptorSetLayout "0:ssbo" = .error "unknown descriptor type" := by decide
example : specToken "0:buffer".data = some ⟨0, .buffer, 1⟩ := by decide
example : specToken "1:[10]image".data = some ⟨1, .image, 10⟩ := by decide
example : specToken "0:buffer junk".data = none := by decide
example : specToken "-1:buffer".data = none := by decide
example : specToken "0:[0]buffer".data = none := by decide
example : parseProgramParamsDis "OpExecutionMode %4 LocalSize 2 3 4\nOpControlBarrier %10 %10 %11\n" =
    .ok ⟨true, (2, 3, 4), 100000⟩ := by decide
example : parseProgramParamsDis "" = .ok ⟨false, (0, 0, 0), 100000⟩ := by decide
example : parseProgramParamsDis "OpExecutionMode %4 LocalSize 2 3 4\nOpControlBarrier" =
    .ok ⟨false, (2, 3, 4), 100000⟩ := by decide
example : parseProgramParamsDis "OpExecutionMode %4 OriginUpperLeft\n" =
    .error "unknown execution mode" := by decide
example : parseProgramParamsDis "OpExecutionMode %4 LocalSize 2 3\n" =
    .error "scan error" := by decide
example : goTitle "example" = "Example" := by decide
example : subgroupSizes 24 5 = [5, 5, 5, 5, 4] := by decide
example : totalInvocations (4, 3, 2) (1, 1, 1) = 24 := by decide

/-! ## Lemmas about the `Sscanf` model -/

lemma isDigitGo_bounds {c : Char} (h : isDigitGo c = true) :
    48 ≤ c.toNat ∧ c.toNat ≤ 57 := by
  simpa [isDigitGo] using h

lemma isDigitGo_not_space {c : Char} (h : isDigitGo c = true) : isSpaceGo c = false := by
  have hb := isDigitGo_bounds h
  simp only [isSpaceGo, decide_eq_false_iff_not]
  omega

lemma isDigitGo_ne {c : Char} (h : isDigitGo c = true) :
    c ≠ '\n' ∧ c ≠ '\r' ∧ c ≠ '+' ∧ c ≠ '-' := by
  refine ⟨?_, ?_, ?_, ?_⟩ <;> rintro rfl <;> simp [isDigitGo] at h

lemma skipSpace_digit {c : Char} (l : List Char) (h : isDigitGo c = true) :
    skipSpace (c :: l) = some (c :: l) := by
  obtain ⟨h1, h2, -, -⟩ := isDigitGo_ne h
  simp [skipSpace, h1, h2, isDigitGo_not_space h]

lemma readSign_digit {c : Char} (l : List Char) (h : isDigitGo c = true) :
    readSign (c :: l) = (1, c :: l) := by
  obtain ⟨-, -, h3, h4⟩ := isDigitGo_ne h
  simp [readSign, h3, h4]

lemma takeWhile_shape {l : List Char} {c : Char} {r : List Char}
    (h : l.takeWhile isDigitGo = c :: r) :
    ∃ t, l = c :: t ∧ isDigitGo c = true ∧ t.takeWhile isDigitGo = r := by
  cases l with
  | nil => simp at h
  | cons a t =>
    rw [List.takeWhile_cons] at h
    by_cases ha : isDigitGo a = true
    · rw [if_pos ha] at h
      obtain ⟨rfl, ht⟩ : a = c ∧ t.takeWhile isDigitGo = r := by
        exact ⟨(List.cons.injEq _ _ _ _ ▸ h).1, (List.cons.injEq _ _ _ _ ▸ h).2⟩
      exact ⟨t, rfl, ha, ht⟩
    · rw [if_neg ha] at h
      cases h

/-- `%d` on an input whose leading digit run is `c :: r` (nonempty) and whose
value fits in `int64` scans exactly that run. -/
lemma scanInt_run {tok : List Char} {c : Char} {r : List Char}
    (h : tok.takeWhile isDigitGo = c :: r)
    (hb : digitsToNat (c :: r) ≤ 2 ^ 63 - 1) :
    scanInt tok = some (Int.ofNat (digitsToNat (c :: r)), tok.dropWhile isDigitGo) := by
  obtain ⟨t, rfl, hc, ht⟩ := takeWhile_shape h
  rw [scanInt, skipSpace_digit t hc]
  simp only [Option.bind_eq_bind, Option.some_bind]
  rw [readSign_digit t hc]
  simp only [h, one_mul]
  rw [if_neg (by simp)]
  rw [if_neg]
  push_neg
  norm_num at hb ⊢
  omega
lemma specKind_cases {k : List Char} {ty : descriptorType} (h : specKind k = some ty) :
    (k = "buffer".data ∧ ty = .buffer) ∨ (k = "image".data ∧ ty = .image) := by
  unfold specKind at h
  split_ifs at h with h1 h2
  · exact Or.inl ⟨h1, by cases h; rfl⟩
  · exact Or.inr ⟨h2, by cases h; rfl⟩

lemma scanString_kind {k : List Char} {ty : descriptorType} (h : specKind k = some ty) :
    scanString k = some (k, []) := by
  rcases specKind_cases h with ⟨rfl, -⟩ | ⟨rfl, -⟩ <;> decide

lemma parseToken_of_specToken {tok : List Char} {d : descriptor}
    (h : specToken tok = some d) : parseToken tok = .ok d := by
  unfold specToken at h
  simp only [] at h
  split at h
  case isTrue => cases h
  case isFalse hbdne =>
  split at h
  case isTrue => cases h
  case isFalse hbdrange =>
  split at h
  case _ r3 heq =>
    obtain ⟨c, r, hbd⟩ : ∃ c r, tok.takeWhile isDigitGo = c :: r := by
      rcases h2 : tok.takeWhile isDigitGo with - | ⟨c, r⟩
      · rw [h2] at hbdne; simp at hbdne
      · exact ⟨c, r, rfl⟩
    rw [hbd] at hbdrange h
    have hscan1 := scanInt_run hbd (Nat.not_lt.mp hbdrange)
    rw [heq] at hscan1
    split at h
    case isTrue => cases h
    case isFalse hcdne =>
    split at h
    case isTrue => cases h
    case isFalse hcd0 =>
    split at h
    case isTrue => cases h
    case isFalse hcdrange =>
    split at h
    case _ kind heq4 =>
      obtain ⟨c2, r2, hcd⟩ : ∃ c2 r2, r3.takeWhile isDigitGo = c2 :: r2 := by
        rcases h2 : r3.takeWhile isDigitGo with - | ⟨c2, r2⟩
        · rw [h2] at hcdne; simp at hcdne
        · exact ⟨c2, r2, rfl⟩
      rw [hcd] at hcdrange h
      have hscan2 := scanInt_run hcd (Nat.not_lt.mp hcdrange)
      rw [heq4] at hscan2
      rcases Option.map_eq_some'.mp h with ⟨ty, hk, hd⟩
      have hbct : scanBindingCountType tok =
          some (Int.ofNat (digitsToNat (c :: r)), Int.ofNat (digitsToNat (c2 :: r2)), kind) := by
        simp [scanBindingCountType, hscan1, hscan2, litChar, scanString_kind hk]
      rcases specKind_cases hk with ⟨rfl, hty⟩ | ⟨rfl, hty⟩ <;>
        subst hty <;>
        simp [parseToken, hbct, checkTypeName, ← hd]
    case _ => cases h
  case _ r2 hnotbr heq =>
    obtain ⟨c, r, hbd⟩ : ∃ c r, tok.takeWhile isDigitGo = c :: r := by
      rcases h2 : tok.takeWhile isDigitGo with - | ⟨c, r⟩
      · rw [h2] at hbdne; simp at hbdne
      · exact ⟨c, r, rfl⟩
    rw [hbd] at hbdrange h
    have hscan1 := scanInt_run hbd (Nat.not_lt.mp hbdrange)
    rw [heq] at hscan1
    rcases Option.map_eq_some'.mp h with ⟨ty, hk, hd⟩
    have hbt : scanBindingType tok = some (Int.ofNat (digitsToNat (c :: r)), r2) := by
      simp [scanBindingType, hscan1, litChar, scanString_kind hk]
    have hbct : scanBindingCountType tok = none := by
      rcases specKind_cases hk with ⟨rfl, -⟩ | ⟨rfl, -⟩ <;>
        simp [scanBindingCountType, hscan1, litChar, show litChar '[' ("buffer".data) = none from by decide,
          show litChar '[' ("image".data) = none from by decide]
    rcases specKind_cases hk with ⟨rfl, hty⟩ | ⟨rfl, hty⟩ <;>
      subst hty <;>
      simp [parseToken, hbct, hbt, checkTypeName, ← hd]
  case _ => cases h

lemma parseTokens_of_specTokens : ∀ (ts : List (List Char)) (ds : List descriptor),
    specTokens ts = some ds → parseTokens ts = .ok ds := by
  intro ts
  induction ts with
  | nil => intro ds h; cases h; rfl
  | cons t ts ih =>
    intro ds h
    unfold specTokens at h
    split at h
    case _ d ds2 hd hds =>
      cases h
      unfold parseTokens
      rw [parseToken_of_specToken hd, ih ds2 hds]
    case _ => cases h

lemma specToken_ranges {tok : List Char} {d : descriptor} (h : specToken tok = some d) :
    0 ≤ d.binding ∧ 1 ≤ d.count := by
  unfold specToken at h
  simp only [] at h
  split at h
  case isTrue => cases h
  case isFalse =>
  split at h
  case isTrue => cases h
  case isFalse =>
  split at h
  case _ r3 heq =>
    split at h
    case isTrue => cases h
    case isFalse =>
    split at h
    case isTrue hcd0 => cases h
    case isFalse hcd0 =>
    split at h
    case isTrue => cases h
    case isFalse =>
    split at h
    case _ kind heq4 =>
      rcases Option.map_eq_some'.mp h with ⟨ty, -, hd⟩
      rw [← hd]
      constructor
      · exact Int.ofNat_nonneg _
      · show (1 : ℤ) ≤ Int.ofNat (digitsToNat (r3.takeWhile isDigitGo))
        exact Int.ofNat_le.mpr (Nat.one_le_iff_ne_zero.mpr hcd0)
    case _ => cases h
  case _ r2 hnotbr heq =>
    rcases Option.map_eq_some'.mp h with ⟨ty, -, hd⟩
    rw [← hd]
    exact ⟨Int.ofNat_nonneg _, le_refl 1⟩
  case _ => cases h

lemma specTokens_ranges : ∀ (ts : List (List Char)) (ds : List descriptor),
    specTokens ts = some ds → ∀ d ∈ ds, 0 ≤ d.binding ∧ 1 ≤ d.count := by
  intro ts
  induction ts with
  | nil => intro ds h; cases h; intro d hd; cases hd
  | cons t ts ih =>
    intro ds h
    unfold specTokens at h
    split at h
    case _ d0 ds2 hd0 hds =>
      cases h
      intro d hd
      rcases List.mem_cons.mp hd with rfl | hmem
      · exact specToken_ranges hd0
      · exact ih ds2 hds d hmem
    case _ => cases h

lemma splitComma_ne_nil (l : List Char) : splitComma l ≠ [] := by
  cases l with
  | nil => simp [splitComma]
  | cons c rest =>
    unfold splitComma
    split
    · simp
    · split <;> simp

lemma parseTokens_length : ∀ (ts : List (List Char)) (ds : List descriptor),
    parseTokens ts = .ok ds → ds.length = ts.length := by
  intro ts
  induction ts with
  | nil => intro ds h; cases h; rfl
  | cons t ts ih =>
    intro ds h
    unfold parseTokens at h
    split at h
    case _ => cases h
    case _ d hd =>
      split at h
      case _ => cases h
      case _ ds2 hds =>
        cases h
        simp [ih ds2 hds]

/-! ## Claim C1 -/

/-- C1 (amended): `parseDescriptorSetLayout` splits its input on commas and,
whenever every token is exactly of the documented grammar forms
`binding:kind` / `binding:[count]kind` (digit runs, machine-range values,
kind `buffer` or `image`), parsing succeeds and returns the denoted
descriptors one per token in input order (`binding:kind` yielding count 1).
The parser is a pure function, but its scan is more lenient than the
grammar, so the claimed "error exactly when no token matches" direction
fails (see the counterexample). -/
theorem claim_C1 (s : String) (ds : List descriptor)
    (h : specTokens (splitComma s.data) = some ds) :
    parseDescriptorSetLayout s = .ok ds :=
  parseTokens_of_specTokens _ _ h

/-- Witness for C1 at a concrete layout string. -/
theorem claim_C1_witness :
    parseDescriptorSetLayout "0:buffer,1:[10]image" =
      .ok [⟨0, .buffer, 1⟩, ⟨1, .image, 10⟩] :=
  claim_C1 "0:buffer,1:[10]image" [⟨0, .buffer, 1⟩, ⟨1, .image, 10⟩] (by decide)

/-- Counterexample to C1 as stated: the token `0:buffer junk` matches
neither grammar form (its kind would be `buffer junk`), yet the parser
accepts it, scanning kind `buffer` and ignoring the trailing text. -/
theorem claim_C1_counterexample :
    parseDescriptorSetLayout "0:buffer junk" = .ok [⟨0, .buffer, 1⟩] ∧
    specToken "0:buffer junk".data = none := by decide

/-! ## Claim C2 -/

/-- C2 (amended): descriptors produced from inputs whose tokens are exactly
of the documented grammar forms satisfy the data-model ranges
`binding ≥ 0` and `count ≥ 1`; the parser itself does not enforce the
ranges (see the counterexample). -/
theorem claim_C2 (s : String) (ds : List descriptor)
    (h : specTokens (splitComma s.data) = some ds) :
    parseDescriptorSetLayout s = .ok ds ∧ ∀ d ∈ ds, 0 ≤ d.binding ∧ 1 ≤ d.count :=
  ⟨parseTokens_of_specTokens _ _ h, specTokens_ranges _ _ h⟩

/-- Witness for C2 at a concrete layout string and descriptor. -/
theorem claim_C2_witness :
    0 ≤ (⟨1, .image, 10⟩ : descriptor).binding ∧ 1 ≤ (⟨1, .image, 10⟩ : descriptor).count :=
  (claim_C2 "0:buffer,1:[10]image" [⟨0, .buffer, 1⟩, ⟨1, .image, 10⟩] (by decide)).2
    ⟨1, .image, 10⟩ (by decide)

/-- Counterexample to C2 as stated: `%d` accepts a sign, so the parse of
`-1:buffer` succeeds and returns a descriptor with `binding = -1 < 0`. -/
theorem claim_C2_counterexample :
    parseDescriptorSetLayout "-1:buffer" = .ok [⟨-1, .buffer, 1⟩] ∧
    ¬(0 ≤ (⟨-1, .buffer, 1⟩ : descriptor).binding) := by decide

/-! ## Claim C10 -/

/-- C10: parsing the empty string fails (its single empty token scans as
neither form), and every successful parse returns at least one descriptor,
because `strings.Split` never returns an empty token list. -/
theorem claim_C10 (s : String) (l : List descriptor)
    (h : parseDescriptorSetLayout s = .ok l) :
    l ≠ [] ∧ (parseDescriptorSetLayout "").isOk = false := by
  constructor
  · intro hl
    subst hl
    have hlen := parseTokens_length _ _ h
    have h2 := splitComma_ne_nil s.data
    cases hsc : splitComma s.data with
    | nil => exact h2 hsc
    | cons a b => rw [hsc] at hlen; simp at hlen
  · decide

/-- Witness for C10 at a concrete successful parse. -/
theorem claim_C10_witness :
    ([⟨0, .buffer, 1⟩] : List descriptor) ≠ [] ∧
    (parseDescriptorSetLayout "").isOk = false :=
  claim_C10 "0:buffer" [⟨0, .buffer, 1⟩] (by decide)

/-! ## Lemmas about the `parseProgramParams` scan loop -/

lemma processLine_isOk_malformed (p : program) (l : List Char)
    (h : malformedExecLine l = true) : (processLine p l).isOk = false := by
  unfold malformedExecLine at h
  unfold processLine
  rcases Bool.and_eq_true_iff.mp h with ⟨h1, h2⟩
  rw [if_pos h1]
  split at h2
  case _ heq => rfl
  case _ sub heq =>
    cases hscan : scanLocalSize sub with
    | none => rfl
    | some xyz => rw [hscan, Option.isNone] at h2; cases h2

lemma processLine_ok_wellformed (p : program) (l : List Char)
    (h : malformedExecLine l = false) : ∃ q, processLine p l = .ok q := by
  unfold malformedExecLine at h
  unfold processLine
  by_cases h1 : hasPfx "OpExecutionMode".data l = true
  · rw [if_pos h1]
    rw [h1] at h
    simp only [Bool.true_and] at h
    split at h
    case _ heq => cases h
    case _ sub heq =>
      rw [heq]
      simp only []
      cases hscan : scanLocalSize sub with
      | none => rw [hscan, Option.isNone] at h; cases h
      | some xyz => exact ⟨_, rfl⟩
  · rw [if_neg h1]
    split
    · exact ⟨_, rfl⟩
    · exact ⟨_, rfl⟩

lemma processLines_isOk_any_malformed :
    ∀ (ls : List (List Char)) (p : program),
      ls.any malformedExecLine = true → (processLines p ls).isOk = false := by
  intro ls
  induction ls with
  | nil => intro p h; cases h
  | cons l ls ih =>
    intro p h
    unfold processLines
    rw [List.any_cons] at h
    rcases Bool.or_eq_true_iff.mp h with hl | hls
    · rw [show processLine p l = processLine p l from rfl]
      have hk := processLine_isOk_malformed p l hl
      cases hpl : processLine p l with
      | error e => rfl
      | ok q => rw [hpl] at hk; simp [Except.isOk, Except.toBool] at hk
    · cases hpl : processLine p l with
      | error e => rfl
      | ok q => exact ih q hls

lemma processLines_ok : ∀ (ls : List (List Char)) (p q : program),
    processLines p ls = .ok q →
    q.memorySize = p.memorySize ∧
    q.hasControlBarriers = (p.hasControlBarriers || ls.any barrierLine) ∧
    q.workgroupSize = wgFold p.workgroupSize ls := by
  intro ls
  induction ls with
  | nil =>
    intro p q h
    cases h
    simp [wgFold]
  | cons l ls ih =>
    intro p q h
    unfold processLines at h
    cases hpl : processLine p l with
    | error e => rw [hpl] at h; cases h
    | ok p2 =>
      rw [hpl] at h
      obtain ⟨hm, hb, hw⟩ := ih p2 q h
      unfold processLine at hpl
      cases h1 : hasPfx "OpExecutionMode".data l with
      | true =>
        rw [if_pos h1] at hpl
        have hbl : barrierLine l = false := by
          unfold barrierLine
          rw [h1]
          rfl
        cases hfind : findSuffixFrom "LocalSize ".data l with
        | none => rw [hfind] at hpl; cases hpl
        | some sub =>
          rw [hfind] at hpl
          simp only [] at hpl
          cases hscan : scanLocalSize sub with
          | none => rw [hscan] at hpl; cases hpl
          | some xyz =>
            rw [hscan] at hpl
            cases hpl
            have hwg : wgFold p.workgroupSize (l :: ls) = wgFold xyz ls := by
              conv_lhs => rw [wgFold]
              rw [if_pos h1, hfind]
              simp only []
              rw [hscan]
            refine ⟨hm, ?_, ?_⟩
            · rw [hb]
              simp [List.any_cons, hbl]
            · rw [hw]
              show wgFold xyz ls = _
              rw [hwg]
      | false =>
        rw [if_neg (by simp [h1])] at hpl
        have hwg : wgFold p.workgroupSize (l :: ls) = wgFold p.workgroupSize ls := by
          conv_lhs => rw [wgFold]
          rw [if_neg (by simp [h1])]
        have hbl : barrierLine l = containsSub "OpControlBarrier".data l := by
          unfold barrierLine
          rw [h1]
          rfl
        cases h2 : containsSub "OpControlBarrier".data l with
        | true =>
          rw [if_pos h2] at hpl
          cases hpl
          refine ⟨hm, ?_, by rw [hw, hwg]⟩
          rw [hb]
          simp [List.any_cons, hbl, h2]
        | false =>
          rw [if_neg (by simp [h2])] at hpl
          cases hpl
          refine ⟨hm, ?_, by rw [hw, hwg]⟩
          rw [hb]
          simp [List.any_cons, hbl, h2]

/-! ## Claim C3 -/

/-- C3 (amended): `parseProgramParams` returns an error whenever some
newline-terminated line of the disassembly begins with `OpExecutionMode` but
is malformed (it lacks `LocalSize ` or its three integers cannot be
scanned).  When the workgroup-size annotation is entirely absent, however,
it succeeds with the zero workgroup size instead of returning an error (see
the counterexample). -/
theorem claim_C3 (dis : String)
    (h : (splitLines dis.data).any malformedExecLine = true) :
    (parseProgramParamsDis dis).isOk = false :=
  processLines_isOk_any_malformed _ _ h

/-- Witness for C3 at a disassembly with a non-`LocalSize` execution mode. -/
theorem claim_C3_witness :
    (parseProgramParamsDis "OpExecutionMode %4 OriginUpperLeft\n").isOk = false :=
  claim_C3 "OpExecutionMode %4 OriginUpperLeft\n" (by decide)

/-- Counterexample to C3 as stated: a disassembly with no workgroup-size
annotation at all (no line mentions `LocalSize`), on which the function
nevertheless returns success, with the Go zero value as workgroup size. -/
theorem claim_C3_counterexample :
    (splitLines "OpCapability Shader\n".data).any
        (fun l => containsSub "LocalSize".data l) = false ∧
    parseProgramParamsDis "OpCapability Shader\n" =
      .ok ⟨false, (0, 0, 0), 100000⟩ := by decide

/-! ## Claim C4 -/

/-- C4 (amended): on success, `memorySize` is the fixed constant 100000,
`workgroupSize` is the value scanned from the last newline-terminated
`OpExecutionMode` line (the Go zero value when there is none), and
`hasControlBarriers` holds iff some newline-terminated line that does not
begin with `OpExecutionMode` contains `OpControlBarrier` — a final
unterminated line is ignored by the `ReadString('\n')` loop, so the claimed
"iff some disassembly line contains OpControlBarrier" fails (see the
counterexample). -/
theorem claim_C4 (dis : String) (p : program)
    (h : parseProgramParamsDis dis = .ok p) :
    p.memorySize = 100000 ∧
    p.hasControlBarriers = (splitLines dis.data).any barrierLine ∧
    p.workgroupSize = wgFold (0, 0, 0) (splitLines dis.data) := by
  obtain ⟨hm, hb, hw⟩ := processLines_ok _ _ _ h
  exact ⟨hm, by simpa [initProgram] using hb, hw⟩

/-- Witness for C4 at a concrete well-formed disassembly. -/
theorem claim_C4_witness :
    (⟨true, (2, 3, 4), 100000⟩ : program).memorySize = 100000 ∧
    (⟨true, (2, 3, 4), 100000⟩ : program).hasControlBarriers =
      (splitLines "OpExecutionMode %4 LocalSize 2 3 4\nOpControlBarrier %10 %10 %11\n".data).any
        barrierLine ∧
    (⟨true, (2, 3, 4), 100000⟩ : program).workgroupSize =
      wgFold (0, 0, 0)
        (splitLines "OpExecutionMode %4 LocalSize 2 3 4\nOpControlBarrier %10 %10 %11\n".data) :=
  claim_C4 "OpExecutionMode %4 LocalSize 2 3 4\nOpControlBarrier %10 %10 %11\n"
    ⟨true, (2, 3, 4), 100000⟩ (by decide)

/-- Counterexample to C4 as stated: the disassembly ends with an
unterminated line containing `OpControlBarrier`; the scan succeeds with
`hasControlBarriers = false` although a disassembly line contains a
control-barrier instruction. -/
theorem claim_C4_counterexample :
    parseProgramParamsDis "OpExecutionMode %4 LocalSize 2 3 4\nOpControlBarrier" =
      .ok ⟨false, (2, 3, 4), 100000⟩ ∧
    containsSub "OpControlBarrier".data
      "OpExecutionMode %4 LocalSize 2 3 4\nOpControlBarrier".data = true := by decide

/-! ## Claim C5 -/

/-- C5: the symbol-rename argument list is exactly one `--redefine-sym
old=new` pair for each of the six coroutine-ABI symbols, in order, where
each new name is the old name prefixed with `<name>_`; nothing else is
renamed. -/
theorem claim_C5 (name : String) :
    renameArgs name =
      ["--redefine-sym", "coroutine_begin=" ++ name ++ "_coroutine_begin",
       "--redefine-sym", "coroutine_await=" ++ name ++ "_coroutine_await",
       "--redefine-sym", "coroutine_destroy=" ++ name ++ "_coroutine_destroy",
       "--redefine-sym", "coroutine_begin.resume=" ++ name ++ "_coroutine_begin.resume",
       "--redefine-sym", "coroutine_begin.destroy=" ++ name ++ "_coroutine_begin.destroy",
       "--redefine-sym", "coroutine_begin.cleanup=" ++ name ++ "_coroutine_begin.cleanup"] := by
  simp [renameArgs, renameSymbolList]
  refine ⟨?_, ?_, ?_, ?_, ?_, ?_⟩ <;> simp [String.append_assoc]

/-! ## Claim C8 -/

/-- Prefix of an appended list. -/
lemma hasPfx_append_self : ∀ (p l : List Char), hasPfx p (p ++ l) = true := by
  intro p
  induction p with
  | nil => intro l; rfl
  | cons c cs ih => intro l; simp [hasPfx, ih]

/-- C8 (amended): the native object file is named
`<program>_linux_<arch>.syso` — with a fixed `linux` component between the
program name and the architecture — not `<program>_<arch>.syso`. -/
theorem claim_C8 (name arch : String) :
    sysoFileName name arch = name ++ ("_linux_" ++ arch ++ ".syso") ∧
    hasPfx name.data (sysoFileName name arch).data = true := by
  constructor
  · simp [sysoFileName, String.append_assoc]
  · have : (sysoFileName name arch).data =
        name.data ++ ("_linux_" ++ arch ++ ".syso").data := by
      simp [sysoFileName, String.data_append, String.append_assoc]
    rw [this]
    exact hasPfx_append_self _ _

/-- Counterexample to C8 as stated: for program `example` and arch `amd64`
the object file is `example_linux_amd64.syso`, not `example_amd64.syso`. -/
theorem claim_C8_counterexample :
    sysoFileName "example" "amd64" = "example_linux_amd64.syso" ∧
    sysoFileName "example" "amd64" ≠ "example_amd64.syso" := by decide

/-! ## Claim C9 -/

lemma sum_map_range_indicator (m q : Nat) : ∀ t : Nat,
    ((List.range t).map (fun i => q + if i < m then 1 else 0)).sum = t * q + min m t := by
  intro t
  induction t with
  | zero => simp
  | succ n ih =>
    rw [List.range_succ, List.map_append, List.sum_append]
    rw [ih]
    simp only [List.map_cons, List.map_nil, List.sum_cons, List.sum_nil]
    rcases Nat.lt_or_ge n m with h | h
    · rw [if_pos h, Nat.min_eq_right (Nat.le_of_lt h), Nat.min_eq_right h, Nat.succ_mul]
      omega
    · rw [if_neg (Nat.not_lt.mpr h), Nat.min_eq_left h,
        Nat.min_eq_left (Nat.le_trans h (Nat.le_succ n)), Nat.succ_mul]
      omega

/-- The subgroup workgroup counts always sum to the workgroup total. -/
lemma subgroupSizes_sum (n t : Nat) (ht : 0 < t) : (subgroupSizes n t).sum = n := by
  unfold subgroupSizes subgroupSize
  rw [sum_map_range_indicator]
  rw [Nat.min_eq_left (Nat.le_of_lt (Nat.mod_lt n ht))]
  exact Nat.div_add_mod n t

/-- C9: for grid `(4,3,2)` and workgroup size `(1,1,1)` the dispatch has 24
invocations, and for every positive thread count the contiguous subgroup
sizes sum to 24, the first `24 % t` subgroups receiving one extra workgroup
(the remainder) and the rest receiving `24 / t`. -/
theorem claim_C9 :
    totalInvocations (4, 3, 2) (1, 1, 1) = 24 ∧
    ∀ t : Nat, 0 < t →
      (subgroupSizes (numWorkgroups (4, 3, 2) (1, 1, 1)) t).sum = 24 ∧
      ∀ i : Nat, (i < 24 % t → subgroupSize 24 t i = 24 / t + 1) ∧
        (24 % t ≤ i → subgroupSize 24 t i = 24 / t) := by
  refine ⟨by decide, fun t ht => ⟨?_, fun i => ⟨fun hi => ?_, fun hi => ?_⟩⟩⟩
  · rw [show numWorkgroups (4, 3, 2) (1, 1, 1) = 24 from by decide]
    exact subgroupSizes_sum 24 t ht
  · simp [subgroupSize, hi]
  · simp [subgroupSize, Nat.not_lt.mpr hi]

/-- Witness for C9 at thread count 5 (and subgroup 0 receiving the
remainder). -/
theorem claim_C9_witness :
    (subgroupSizes (numWorkgroups (4, 3, 2) (1, 1, 1)) 5).sum = 24 ∧
    subgroupSize 24 5 0 = 24 / 5 + 1 :=
  ⟨(claim_C9.2 5 (by decide)).1, ((claim_C9.2 5 (by decide)).2 0).1 (by decide)⟩

/-! ## Substring lemmas for the generated artifact text -/

lemma hasPfx_extend : ∀ (p l b : List Char), hasPfx p l = true → hasPfx p (l ++ b) = true := by
  intro p
  induction p with
  | nil => intro l b h; rfl
  | cons c cs ih =>
    intro l b h
    cases l with
    | nil => cases h
    | cons x xs =>
      rw [List.cons_append]
      unfold hasPfx at h ⊢
      rcases Bool.and_eq_true_iff.mp h with ⟨h1, h2⟩
      rw [h1, ih xs b h2]
      rfl

lemma containsSub_nil_pat (b : List Char) : containsSub [] b = true := by
  cases b <;> simp [containsSub, findSuffixFrom, hasPfx]

lemma containsSub_append_here (p l : List Char) : containsSub p (p ++ l) = true := by
  unfold containsSub
  cases hpl : p ++ l with
  | nil =>
    have hp : p = [] := (List.append_eq_nil.mp hpl).1
    subst hp
    simp [findSuffixFrom, hasPfx]
  | cons c rest =>
    rw [findSuffixFrom]
    rw [if_pos (hpl ▸ hasPfx_append_self p l)]
    rfl

lemma containsSub_append_right : ∀ (p a b : List Char),
    containsSub p b = true → containsSub p (a ++ b) = true := by
  intro p a
  induction a with
  | nil => intro b h; simpa using h
  | cons c a ih =>
    intro b h
    rw [List.cons_append]
    unfold containsSub findSuffixFrom
    split
    · rfl
    · exact ih b h

lemma containsSub_append_left : ∀ (p a b : List Char),
    containsSub p a = true → containsSub p (a ++ b) = true := by
  intro p a
  induction a with
  | nil =>
    intro b h
    unfold containsSub findSuffixFrom at h
    split at h
    case isTrue hp =>
      cases p with
      | nil => exact containsSub_nil_pat b
      | cons c cs => cases hp
    case isFalse => cases h
  | cons c a ih =>
    intro b h
    rw [List.cons_append]
    unfold containsSub findSuffixFrom at h ⊢
    split at h
    case isTrue hp =>
      have : hasPfx p (c :: (a ++ b)) = true := hasPfx_extend p (c :: a) b hp
      rw [if_pos this]
      rfl
    case isFalse hp =>
      by_cases hq : hasPfx p (c :: (a ++ b)) = true
      · rw [if_pos hq]; rfl
      · rw [if_neg hq]; exact ih b h

lemma containsStr_here (p b : String) : containsStr p (p ++ b) = true := by
  unfold containsStr
  rw [String.data_append]
  exact containsSub_append_here _ _

lemma containsStr_of_right (p a b : String) (h : containsStr p b = true) :
    containsStr p (a ++ b) = true := by
  unfold containsStr at h ⊢
  rw [String.data_append]
  exact containsSub_append_right _ _ _ h

lemma containsStr_of_left (p a b : String) (h : containsStr p a = true) :
    containsStr p (a ++ b) = true := by
  unfold containsStr at h ⊢
  rw [String.data_append]
  exact containsSub_append_left _ _ _ h

lemma mem_concatMapStr (f : descriptor → String) : ∀ {layout : List descriptor} {d : descriptor},
    d ∈ layout → containsStr (f d) (concatMapStr f layout) = true := by
  intro layout
  induction layout with
  | nil => intro d hd; cases hd
  | cons d0 ds ih =>
    intro d hd
    rcases List.mem_cons.mp hd with rfl | hmem
    · exact containsStr_here _ _
    · exact containsStr_of_right _ _ _ (ih hmem)

/-! ## Claim C6 -/

/-- C6: for every package name, program name and layout, the fallback
source contains, for each descriptor, a `BindingN` accessor whose entire
body is `panic("unsupported")` — the accessor text contains no `return`
statement, so the failure happens at call time, not at build time. -/
theorem claim_C6 (pkg name : String) (layout : List descriptor) (d : descriptor)
    (hd : d ∈ layout) :
    containsStr (fallbackAccessor name d) (generateGoFallback pkg name layout) = true ∧
    (d.count = 1 →
      fallbackAccessor name d =
        "func (l *" ++ goTitle name ++ "DescriptorSetLayout) Binding" ++ toString d.binding
          ++ "() *cpu." ++ descTypeGoName d.dtype
          ++ "Descriptor \x7b\n\tpanic(\"unsupported\")\n\x7d\n\n") ∧
    (1 < d.count →
      fallbackAccessor name d =
        "func (l *" ++ goTitle name ++ "DescriptorSetLayout) Binding" ++ toString d.binding
          ++ "(index int) *cpu." ++ descTypeGoName d.dtype
          ++ "Descriptor \x7b\n\tpanic(\"unsupported\")\n\x7d\n\n") := by
  refine ⟨?_, ?_, ?_⟩
  · exact containsStr_of_right _ _ _ (mem_concatMapStr _ hd)
  · intro h1
    unfold fallbackAccessor
    rw [h1]
    rw [if_neg (by norm_num)]
    simp [String.append_empty, String.append_assoc]
  · intro h2
    unfold fallbackAccessor
    rw [if_pos h2]
    simp [String.append_assoc]

/-- Witness for C6 at a concrete layout and descriptor. -/
theorem claim_C6_witness :
    containsStr (fallbackAccessor "example" ⟨1, .image, 10⟩)
      (generateGoFallback "example" "example" [⟨0, .buffer, 1⟩, ⟨1, .image, 10⟩]) = true :=
  (claim_C6 "example" "example" [⟨0, .buffer, 1⟩, ⟨1, .image, 10⟩] ⟨1, .image, 10⟩
    (by decide)).1

/-! ## Claim C7 -/

/-- C7: the real accessor source contains, for each descriptor, a
`BindingN` accessor; for `count = 1` it takes no index argument and returns
a pointer to the `bindingN` field, for `count > 1` it takes an `index int`
argument and returns a pointer to the `index`-th element of the `bindingN`
array, whose declared length in the generated C header is exactly `count`
(making the accessor meaningful for all `0 ≤ index < count`). -/
theorem claim_C7 (pkg name hexSum : String) (layout : List descriptor) (d : descriptor)
    (hd : d ∈ layout) :
    containsStr (goAccessor name d) (generateGo pkg name hexSum layout) = true ∧
    (d.count = 1 →
      goAccessor name d =
        "func (l *" ++ goTitle name ++ "DescriptorSetLayout) Binding" ++ toString d.binding
          ++ "() *cpu." ++ descTypeGoName d.dtype
          ++ "Descriptor \x7b\n\treturn (*cpu." ++ descTypeGoName d.dtype
          ++ "Descriptor)(unsafe.Pointer(&l.binding" ++ toString d.binding
          ++ "))\n\x7d\n\n") ∧
    (1 < d.count →
      goAccessor name d =
        "func (l *" ++ goTitle name ++ "DescriptorSetLayout) Binding" ++ toString d.binding
          ++ "(index int) *cpu." ++ descTypeGoName d.dtype
          ++ "Descriptor \x7b\n\treturn (*cpu." ++ descTypeGoName d.dtype
          ++ "Descriptor)(unsafe.Pointer(&l.binding" ++ toString d.binding
          ++ "[index]))\n\x7d\n\n" ∧
      containsStr (headerField d) (generateHeader name layout) = true ∧
      headerField d =
        "\tstruct " ++ descTypeCName d.dtype ++ "_descriptor binding" ++ toString d.binding
          ++ "[" ++ toString d.count ++ "];\n") := by
  refine ⟨?_, ?_, ?_⟩
  · exact containsStr_of_right _ _ _ (mem_concatMapStr _ hd)
  · intro h1
    unfold goAccessor
    rw [h1]
    rw [if_neg (by norm_num), if_neg (by norm_num)]
    simp [String.append_empty, String.append_assoc]
  · intro h2
    refine ⟨?_, ?_, ?_⟩
    · unfold goAccessor
      rw [if_pos h2, if_pos h2]
      simp [String.append_assoc]
    · exact containsStr_of_left _ _ _
        (containsStr_of_right _ _ _ (mem_concatMapStr _ hd))
    · unfold headerField
      rw [if_pos h2]
      simp [String.append_assoc]

/-- Witness for C7 at a concrete layout and an arrayed descriptor. -/
theorem claim_C7_witness :
    containsStr (goAccessor "example" ⟨1, .image, 10⟩)
      (generateGo "example" "example" "abc123" [⟨0, .buffer, 1⟩, ⟨1, .image, 10⟩]) = true :=
  (claim_C7 "example" "example" "abc123" [⟨0, .buffer, 1⟩, ⟨1, .image, 10⟩] ⟨1, .image, 10⟩
    (by decide)).1

end GioCpu
